import Mathlib

/-!
Shallow embedding of the go-atlasScientific driver.

The driver talks to Atlas Scientific probes over an I2C bus: it writes an
ASCII command, sleeps a settle time, reads a fixed 64-byte frame whose first
byte is a status code, and decodes the remainder as a NUL-padded ASCII
payload.  The embedding models the transport as a state carrying the frames
the device will supply to successive reads, together with an event log of
writes, sleeps and reads, so that theorems can speak about which commands
are issued and how many reads happen.  Numeric values are modelled as
rationals; machine float32 rounding does not affect any property proved
here.
-/

/-- One observable transport-level action of the driver. -/
inductive Ev
  | wr (data : String)
  | slp (ms : Nat)
  | rd
  deriving DecidableEq, Repr

/-- Transport state: the frames the device will hand to successive reads,
and the log of actions performed so far. -/
structure TState where
  frames : List (List Nat)
  events : List Ev
  deriving DecidableEq, Repr

/-- Append one action to the event log. -/
def logEv (e : Ev) (s : TState) : TState :=
  { s with events := s.events ++ [e] }

/-- Model of time.Sleep: logs the wait. -/
def sleepOp (ms : Nat) (s : TState) : TState :=
  logEv (.slp ms) s

/-- Model of Connection.Write: logs the written command.  (Transport-level
write failures are not modelled; every claim treated here is about command
traces and status-byte handling, stated under successful transactions.) -/
def writeOp (data : String) (s : TState) : TState :=
  logEv (.wr data) s

/-- Model of Connection.Read into a 64-byte buffer: consumes the next frame;
running out of scripted frames models an I2C-level read failure. -/
def readOp (s : TState) : Except String (List Nat) × TState :=
  let s1 := logEv .rd s
  match s1.frames with
  | [] => (.error "i2c read failed", s1)
  | f :: rest => (.ok f, { s1 with frames := rest })

/-- Mirror of the Go ReadError struct (status code plus message). -/
structure ReadError where
  status : Nat
  message : String
  deriving DecidableEq, Repr

/-- Error taxonomy of the driver layer:  I2C failures, status-byte read
errors, argument-validation failures and numeric/structural parse failures
(Go uses untyped errors.New strings for the latter two; the payloads carried
here identify the failure the same way the Go messages do). -/
inductive DriverErr
  | io (message : String)
  | readE (status : Nat) (message : String)
  | validation (message : String)
  | parseE (message : String)
  deriving DecidableEq, Repr

/-- Results of driver operations are Except values; equality of results is
decidable, which lets witnesses evaluate concrete runs. -/
instance {ε α : Type} [DecidableEq ε] [DecidableEq α] : DecidableEq (Except ε α) := fun x y =>
  match x, y with
  | .error a, .error b => decidable_of_iff (a = b) (by simp)
  | .error _, .ok _ => isFalse (by simp)
  | .ok _, .error _ => isFalse (by simp)
  | .ok a, .ok b => decidable_of_iff (a = b) (by simp)

/-- Translation of checkReadError (atlasScientific.go): switch on data[0].
Status 1 is success; 2, 254, 255 are the documented failure codes; any
other first byte falls through the switch and is treated as success.
(The Go buffer always has 64 bytes, so the empty case is unreachable.) -/
def checkReadError (data : List Nat) : Option ReadError :=
  match data with
  | [] => none
  | b :: _ =>
    if b = 1 then none
    else if b = 2 then some ⟨2, "Read error"⟩
    else if b = 254 then some ⟨254, "Pending"⟩
    else if b = 255 then some ⟨255, "No Data"⟩
    else none

/-- Trailing-NUL trim: the suffix removal half of bytes.Trim(data, "\x00"). -/
def dropTrailingZeros : List Nat → List Nat
  | [] => []
  | b :: rest =>
    match dropTrailingZeros rest with
    | [] => if b = 0 then [] else [b]
    | r => b :: r

/-- bytes.Trim(data, "\x00"): removes leading and trailing NUL bytes. -/
def trimNulls (data : List Nat) : List Nat :=
  dropTrailingZeros (data.dropWhile (fun b => b == 0))

/-- Decode a byte list as a string (all payload bytes are ASCII). -/
def strOfBytes (l : List Nat) : String :=
  String.mk (l.map (fun b => Char.ofNat b))

/-- string(bytes.Trim(data, "\x00")[1:]) as computed by PerformRead.
(Go panics if the trimmed slice is empty, i.e. on an all-NUL frame; the
model returns "" there.  No theorem below touches that frame.) -/
def payloadString (data : List Nat) : String :=
  strOfBytes ((trimNulls data).drop 1)

/-- Translation of AtlasScientific.PerformRead: sleep the wait time, read a
64-byte frame, check the status byte; on status 254 sleep the wait time
again and retry the read exactly once, surfacing the retried status if it is
still an error; on any other error status fail immediately. -/
def PerformRead (waitMs : Nat) (s : TState) : Except DriverErr String × TState :=
  let s1 := sleepOp waitMs s
  match readOp s1 with
  | (.error e, s2) => (.error (.io e), s2)
  | (.ok data, s2) =>
    match checkReadError data with
    | some err =>
      if err.status = 254 then
        let s3 := sleepOp waitMs s2
        match readOp s3 with
        | (.error e, s4) => (.error (.io e), s4)
        | (.ok data2, s4) =>
          match checkReadError data2 with
          | some err2 => (.error (.readE err2.status err2.message), s4)
          | none => (.ok (payloadString data2), s4)
      else (.error (.readE err.status err.message), s2)
    | none => (.ok (payloadString data), s2)

/-- A 64-byte success frame with an empty payload (status byte 1, then NUL
padding): the reply to a command that returns no data. -/
def okFrame : List Nat := 1 :: List.replicate 63 0

-- Helper evaluation lemmas shared by several developments below.

theorem checkReadError_okFrame : checkReadError okFrame = none := rfl

theorem payloadString_okFrame : payloadString okFrame = "" := rfl

theorem performRead_okFrame (w : Nat) (rest : List (List Nat)) (evs : List Ev) :
    PerformRead w ⟨okFrame :: rest, evs⟩ = (.ok "", ⟨rest, evs ++ [.slp w, .rd]⟩) := by
  simp [PerformRead, sleepOp, readOp, logEv, checkReadError_okFrame, payloadString_okFrame]

/-- C1: PerformRead status-byte handling.  A first read with status 254
causes one additional sleep of the wait time and exactly one re-read (the
event log ends with sleep, read, sleep, read — no third read); if the
retried read's status is still unsuccessful that status is surfaced as the
error.  A first read with status 2 or 255 fails immediately with a single
read and no retry. -/
theorem performRead_status_byte_handling
    (w : Nat) (f1 f2 : List Nat) (fs : List (List Nat)) (evs : List Ev)
    (_hl1 : f1.length = 64) (_hl2 : f2.length = 64) :
    (f1.head? = some 254 →
      ((∀ e2 : ReadError, checkReadError f2 = some e2 →
          PerformRead w ⟨f1 :: f2 :: fs, evs⟩ =
            (.error (.readE e2.status e2.message),
              ⟨fs, evs ++ [.slp w, .rd, .slp w, .rd]⟩)) ∧
        (checkReadError f2 = none →
          PerformRead w ⟨f1 :: f2 :: fs, evs⟩ =
            (.ok (payloadString f2), ⟨fs, evs ++ [.slp w, .rd, .slp w, .rd]⟩)))) ∧
    (f1.head? = some 2 →
      PerformRead w ⟨f1 :: f2 :: fs, evs⟩ =
        (.error (.readE 2 "Read error"), ⟨f2 :: fs, evs ++ [.slp w, .rd]⟩)) ∧
    (f1.head? = some 255 →
      PerformRead w ⟨f1 :: f2 :: fs, evs⟩ =
        (.error (.readE 255 "No Data"), ⟨f2 :: fs, evs ++ [.slp w, .rd]⟩)) := by
  refine ⟨?_, ?_, ?_⟩
  · intro h254
    obtain ⟨t1, rfl⟩ : ∃ t, f1 = 254 :: t := by
      cases f1 with
      | nil => simp at h254
      | cons a t =>
        simp only [List.head?_cons, Option.some.injEq] at h254
        exact ⟨t, by rw [h254]⟩
    have hc : checkReadError (254 :: t1) = some ⟨254, "Pending"⟩ := rfl
    constructor
    · intro e2 he2
      simp [PerformRead, sleepOp, readOp, logEv, hc, he2]
    · intro he2
      simp [PerformRead, sleepOp, readOp, logEv, hc, he2]
  · intro h2
    obtain ⟨t1, rfl⟩ : ∃ t, f1 = 2 :: t := by
      cases f1 with
      | nil => simp at h2
      | cons a t =>
        simp only [List.head?_cons, Option.some.injEq] at h2
        exact ⟨t, by rw [h2]⟩
    have hc : checkReadError (2 :: t1) = some ⟨2, "Read error"⟩ := rfl
    simp [PerformRead, sleepOp, readOp, logEv, hc]
  · intro h255
    obtain ⟨t1, rfl⟩ : ∃ t, f1 = 255 :: t := by
      cases f1 with
      | nil => simp at h255
      | cons a t =>
        simp only [List.head?_cons, Option.some.injEq] at h255
        exact ⟨t, by rw [h255]⟩
    have hc : checkReadError (255 :: t1) = some ⟨255, "No Data"⟩ := rfl
    simp [PerformRead, sleepOp, readOp, logEv, hc]

/-- C1 witness: with a pending frame followed by a no-data frame the driver
sleeps, reads, sleeps, re-reads once, and surfaces status 255. -/
theorem performRead_status_byte_handling_witness :
    PerformRead 5 ⟨[254 :: List.replicate 63 0, 255 :: List.replicate 63 0], []⟩ =
      (.error (.readE 255 "No Data"), ⟨[], [.slp 5, .rd, .slp 5, .rd]⟩) := by
  have h := (performRead_status_byte_handling 5 (254 :: List.replicate 63 0)
      (255 :: List.replicate 63 0) [] [] (by decide) (by decide)).1 (by decide)
  exact (h.1 ⟨255, "No Data"⟩ (by decide)).trans (by simp)

/-- Payload as the spec sentence describes it (for comparison with the
code's behaviour): drop byte 0 of the frame, then trim trailing NUL
padding from the remaining bytes. -/
def specPayload (data : List Nat) : String :=
  strOfBytes (dropTrailingZeros (data.drop 1))

theorem dropTrailingZeros_cons (b : Nat) (rest : List Nat) :
    dropTrailingZeros (b :: rest) =
      match dropTrailingZeros rest with
      | [] => if b = 0 then [] else [b]
      | r => b :: r := rfl

theorem dropTrailingZeros_cons_ne (b : Nat) (h : b ≠ 0) (rest : List Nat) :
    dropTrailingZeros (b :: rest) = b :: dropTrailingZeros rest := by
  rw [dropTrailingZeros_cons]
  cases hr : dropTrailingZeros rest with
  | nil => simp [h]
  | cons x xs => simp

theorem checkReadError_cons_none (b : Nat) (t : List Nat)
    (h2 : b ≠ 2) (h254 : b ≠ 254) (h255 : b ≠ 255) :
    checkReadError (b :: t) = none := by
  simp [checkReadError, h2, h254, h255]

/-- A status-0 frame carrying payload "AB": byte 0 is NUL, bytes 1..2 are
'A' and 'B', the rest is NUL padding. -/
def frame0 : List Nat := 0 :: 65 :: 66 :: List.replicate 61 0

/-- C6 counterexample: on a 64-byte frame whose status byte is 0 (none of
2, 254, 255, hence treated as success) the code trims the leading NUL
status byte as well and then drops the first payload byte, returning "B"
where the claim's "drop byte 0, then trim trailing NULs" recipe gives
"AB". -/
theorem performRead_payload_status0_counterexample :
    frame0.length = 64 ∧
    PerformRead 300 ⟨[frame0], []⟩ = (.ok "B", ⟨[], [.slp 300, .rd]⟩) ∧
    specPayload frame0 = "AB" ∧
    (PerformRead 300 ⟨[frame0], []⟩).1 ≠ Except.ok (specPayload frame0) := by
  exact ⟨by decide, by decide, by decide, by decide⟩

/-- C6 (amended): for every 64-byte reply frame whose status byte is none
of 0, 2, 254, 255 — unrecognized nonzero status codes included, which are
treated as success — PerformRead returns the payload obtained by dropping
byte 0 and then trimming trailing NUL padding from the remaining bytes. -/
theorem performRead_success_payload
    (w b : Nat) (t : List Nat) (fs : List (List Nat)) (evs : List Ev)
    (h0 : b ≠ 0) (h2 : b ≠ 2) (h254 : b ≠ 254) (h255 : b ≠ 255)
    (_hl : (b :: t).length = 64) :
    PerformRead w ⟨(b :: t) :: fs, evs⟩ =
      (.ok (specPayload (b :: t)), ⟨fs, evs ++ [.slp w, .rd]⟩) := by
  have hc : checkReadError (b :: t) = none := checkReadError_cons_none b t h2 h254 h255
  have hp : payloadString (b :: t) = specPayload (b :: t) := by
    unfold payloadString specPayload trimNulls
    have hdw : (b :: t).dropWhile (fun x => x == 0) = b :: t := by
      simp [List.dropWhile_cons, h0]
    rw [hdw, dropTrailingZeros_cons_ne b h0 t]
    simp
  simp [PerformRead, sleepOp, readOp, logEv, hc, hp]

/-- C6 witness: a frame with unrecognized status byte 7 and payload "A"
succeeds and yields the claim's payload. -/
theorem performRead_success_payload_witness :
    PerformRead 100 ⟨[7 :: 65 :: List.replicate 62 0], []⟩ =
      (.ok "A", ⟨[], [.slp 100, .rd]⟩) := by
  have h := performRead_success_payload 100 7 (65 :: List.replicate 62 0) [] []
    (by decide) (by decide) (by decide) (by decide) (by decide)
  exact h.trans (by decide)

/-- Left-pad a digit string with zeros to the given width. -/
def padLeftZeros (n : Nat) (s : String) : String :=
  String.mk (List.replicate (n - s.length) '0') ++ s

/-- Model of the fmt %f verb (six fractional digits) at rational precision:
the digits of round(|q| * 10^6), split six digits before the end.  The
rounding of the half-scale a/b + 1/2 is computed as (2*a + b) / (2*b) on
integers so that the kernel can evaluate it; rounding is half away from
zero where Go rounds ties to even, and no theorem below evaluates a tie. -/
def formatGoFloat (q : ℚ) : String :=
  let n : Int := if q < 0 then -q.num else q.num
  let scaled : Int := (2 * n * 1000000 + (q.den : Int)) / (2 * (q.den : Int))
  (if q < 0 then "-" else "") ++ toString (scaled / 1000000) ++ "." ++
    padLeftZeros 6 (toString (scaled % 1000000))

/-- Go int(float) conversion: truncation toward zero. -/
def goTruncatedInt (q : ℚ) : Int :=
  Int.tdiv q.num (q.den : Int)

namespace AtlasScientific

/-- Translation of (*AtlasScientific).Init: no device I/O, returns nil. -/
def Init (s : TState) : Except DriverErr Unit × TState := (.ok (), s)

/-- Translation of (*AtlasScientific).ClearCalibration: writes CAL,clear
and reads with a 1300 ms settle.  (The inline comment in the source says
"Wait: 300ms"; the code passes 1300 ms to PerformRead.) -/
def ClearCalibration (s : TState) : Except DriverErr Unit × TState :=
  let s1 := writeOp "CAL,clear" s
  match PerformRead 1300 s1 with
  | (.error e, s2) => (.error e, s2)
  | (.ok _, s2) => (.ok (), s2)

end AtlasScientific

namespace PH

/-- Translation of (*PH).Calibration (ph.go): rejects any point other than
high, mid, low before touching the device; otherwise writes
CAL,<point>,<value> and reads with a 1600 ms settle. -/
def Calibration (calPoint : String) (phValue : ℚ) (s : TState) :
    Except DriverErr Unit × TState :=
  if calPoint ≠ "high" ∧ calPoint ≠ "mid" ∧ calPoint ≠ "low" then
    (.error (.validation "Invalid calPoint value.  Valid values: high, mid low"), s)
  else
    let s1 := writeOp ("CAL," ++ calPoint ++ "," ++ formatGoFloat phValue) s
    match PerformRead 1600 s1 with
    | (.error e, s2) => (.error e, s2)
    | (.ok _, s2) => (.ok (), s2)

/-- Translation of (*PH).ClearCalibration (ph.go): writes CAL,clear and
reads with a 300 ms settle. -/
def ClearCalibration (s : TState) : Except DriverErr Unit × TState :=
  let s1 := writeOp "CAL,clear" s
  match PerformRead 300 s1 with
  | (.error e, s2) => (.error e, s2)
  | (.ok _, s2) => (.ok (), s2)

end PH

/-- C7 counterexample: the shared base ClearCalibration waits 1300 ms, not
300 ms, before reading the reply — no 300 ms sleep occurs in its trace. -/
theorem base_clearCalibration_settle_counterexample :
    AtlasScientific.ClearCalibration ⟨[okFrame], []⟩ =
      (.ok (), ⟨[], [.wr "CAL,clear", .slp 1300, .rd]⟩) ∧
    Ev.slp 300 ∉ (AtlasScientific.ClearCalibration ⟨[okFrame], []⟩).2.events := by
  exact ⟨by decide, by decide⟩

/-- C7 (amended): ClearCalibration on the shared base capability sends
CAL,clear and uses a 1300 ms settle time before reading the reply; the
300 ms settle time is what the pH extension's override uses. -/
theorem clearCalibration_settle_times (rest : List (List Nat)) (evs : List Ev) :
    AtlasScientific.ClearCalibration ⟨okFrame :: rest, evs⟩ =
      (.ok (), ⟨rest, evs ++ [.wr "CAL,clear", .slp 1300, .rd]⟩) ∧
    PH.ClearCalibration ⟨okFrame :: rest, evs⟩ =
      (.ok (), ⟨rest, evs ++ [.wr "CAL,clear", .slp 300, .rd]⟩) := by
  constructor
  · simp [AtlasScientific.ClearCalibration, writeOp, logEv, performRead_okFrame]
  · simp [PH.ClearCalibration, writeOp, logEv, performRead_okFrame]

/-- The ERROR_VALUE sentinel from atlasScientific.go. -/
def ERROR_VALUE : ℚ := -1

/-- Accumulate a decimal digit string into a number. -/
def natOfDigits (cs : List Char) : Nat :=
  cs.foldl (fun n c => 10 * n + (c.toNat - 48)) 0

/-- Model of strconv.ParseFloat on the decimal grammar, at rational
precision: optional sign, digits with an optional dot (at least one digit
overall), optional e/E exponent with its own optional sign and at least one
digit, nothing left over.  Inputs outside this grammar fail, as in Go.
(Go additionally accepts inf/NaN spellings, which no device reply uses and
which have no rational value; they are out of the modelled grammar.) -/
def parseFloat32 (s : String) : Option ℚ :=
  let cs := s.data
  let (isNeg, cs1) :=
    match cs with
    | '+' :: r => (false, r)
    | '-' :: r => (true, r)
    | r => (false, r)
  let ip := cs1.takeWhile Char.isDigit
  let rest1 := cs1.dropWhile Char.isDigit
  let (fp, rest2) :=
    match rest1 with
    | '.' :: r => (r.takeWhile Char.isDigit, r.dropWhile Char.isDigit)
    | r => (([] : List Char), r)
  if ip.isEmpty && fp.isEmpty then none
  else
    let mantNat : Nat := natOfDigits ip * 10 ^ fp.length + natOfDigits fp
    let mantInt : Int := if isNeg then -(mantNat : Int) else (mantNat : Int)
    match rest2 with
    | [] => some (mkRat mantInt (10 ^ fp.length))
    | e :: r =>
      if e = 'e' ∨ e = 'E' then
        let (expNeg, r1) :=
          match r with
          | '+' :: r2 => (false, r2)
          | '-' :: r2 => (true, r2)
          | r2 => (false, r2)
        let ed := r1.takeWhile Char.isDigit
        let r2 := r1.dropWhile Char.isDigit
        if ed.isEmpty ∨ !r2.isEmpty then none
        else if expNeg then some (mkRat mantInt (10 ^ (fp.length + natOfDigits ed)))
        else some (mkRat (mantInt * 10 ^ natOfDigits ed) (10 ^ fp.length))
      else none

/-- Worker for splitComma: walk the characters, flushing the accumulated
field (kept reversed) at every comma. -/
def splitCommaAux : List Char → List Char → List String
  | [], acc => [String.mk acc.reverse]
  | c :: rest, acc =>
    if c = ',' then String.mk acc.reverse :: splitCommaAux rest []
    else splitCommaAux rest (c :: acc)

/-- Translation of strings.Split(s, ",") as used by GetAllValues: split on
every comma; the empty string yields one empty field, and adjacent commas
yield empty fields. -/
def splitComma (s : String) : List String :=
  splitCommaAux s.data []

/-- The ConductivityMeasurement enumeration (conductivity.go). -/
inductive ConductivityMeasurement
  | EC
  | TDS
  | Salinity
  | SpecificGravity
  deriving DecidableEq, Repr

/-- The package-level map from measurement to protocol token
(conductivityMeasurementToOutputParam in conductivity.go); Go map lookup
yields the value and an ok flag, modelled as Option. -/
def conductivityMeasurementToOutputParam : ConductivityMeasurement → Option String
  | .EC => some "EC"
  | .TDS => some "TDS"
  | .Salinity => some "S"
  | .SpecificGravity => some "SG"

/-- The package-level map from protocol token to measurement
(outputParamToConductivityMeasurement in conductivity.go). -/
def outputParamToConductivityMeasurement (s : String) : Option ConductivityMeasurement :=
  if s = "EC" then some .EC
  else if s = "TDS" then some .TDS
  else if s = "S" then some .Salinity
  else if s = "SG" then some .SpecificGravity
  else none

/-- The token of a measurement (total, since the Go map holds all four). -/
def tokenOf (k : ConductivityMeasurement) : String :=
  (conductivityMeasurementToOutputParam k).getD ""

namespace Conductivity

/-- The loop body of (*Conductivity).GetAllValues: walk the negotiated
parameters positionally against the CSV fields, parse each field as a
float, fail on the first parse error, and insert into the result map
(later occurrences of a key overwrite earlier ones, as in a Go map). -/
def valuesLoop :
    List (ConductivityMeasurement × String) → (ConductivityMeasurement → Option ℚ) →
      Except DriverErr (ConductivityMeasurement → Option ℚ)
  | [], acc => .ok acc
  | (k, s) :: rest, acc =>
    match parseFloat32 s with
    | none => .error (.parseE s)
    | some f => valuesLoop rest (fun k2 => if k2 = k then some f else acc k2)

/-- Translation of (*Conductivity).GetAllValues, as a function of the
current output-parameter set (what GetOutputParameters returned) and the
raw reply (what GetRawValue returned): split the raw CSV by comma, fail if
the field count differs from the parameter count, otherwise zip
positionally, parsing each field.  (The Go mismatch error interpolates the
two lists into its message; the model keeps a fixed message.) -/
def GetAllValues (outputParams : List ConductivityMeasurement) (rawValue : String) :
    Except DriverErr (ConductivityMeasurement → Option ℚ) :=
  let data := splitComma rawValue
  if data.length ≠ outputParams.length then
    .error (.validation "Output param count mis-match")
  else
    valuesLoop (outputParams.zip data) (fun _ => none)

/-- Translation of (*Conductivity).GetValue as a function of the same
inputs: on error return the ERROR_VALUE sentinel with the error; otherwise
index the map at the configured default measurement — a Go map read of a
missing key yields the zero value. -/
def GetValue (defaultMeasurement : ConductivityMeasurement)
    (outputParams : List ConductivityMeasurement) (rawValue : String) :
    ℚ × Option DriverErr :=
  match GetAllValues outputParams rawValue with
  | .error e => (ERROR_VALUE, some e)
  | .ok m => ((m defaultMeasurement).getD 0, none)

/-- Translation of (*Conductivity).OutputParameters: for each map entry —
Go map iteration order is unspecified, so the model takes the entries as an
explicit list — look up the token, write O,<token>,<1|0>, and perform a
full 300 ms read cycle; the first failure aborts the loop. -/
def OutputParameters :
    List (ConductivityMeasurement × Bool) → TState → Except DriverErr Unit × TState
  | [], s => (.ok (), s)
  | (key, value) :: rest, s =>
    match conductivityMeasurementToOutputParam key with
    | none => (.error (.validation "Unable to find string output param"), s)
    | some p =>
      let valStr := if value then "1" else "0"
      let s1 := writeOp ("O," ++ p ++ "," ++ valStr) s
      match PerformRead 300 s1 with
      | (.error e, s2) => (.error e, s2)
      | (.ok _, s2) => OutputParameters rest s2

/-- The all-true map literal built by defaultOutputParameters, as entries. -/
def allOnEntries : List (ConductivityMeasurement × Bool) :=
  [(.EC, true), (.TDS, true), (.Salinity, true), (.SpecificGravity, true)]

/-- Translation of (*Conductivity).defaultOutputParameters: enable all four
channels.  The iteration order of the Go map literal is unspecified, so the
model is parameterized by the order, constrained in theorems to be a
permutation of the four all-true entries. -/
def defaultOutputParameters (order : List (ConductivityMeasurement × Bool))
    (s : TState) : Except DriverErr Unit × TState :=
  OutputParameters order s

/-- Translation of (*Conductivity).Init: delegates to
defaultOutputParameters. -/
def Init (order : List (ConductivityMeasurement × Bool)) (s : TState) :
    Except DriverErr Unit × TState :=
  defaultOutputParameters order s

/-- Translation of (*Conductivity).ProbeType: reject a probe constant
outside [0.1, 10] before touching the device; otherwise write K,<k> and
read with a 300 ms settle. -/
def ProbeType (probeType : ℚ) (s : TState) : Except DriverErr Unit × TState :=
  if probeType < mkRat 1 10 ∨ probeType > 10 then
    (.error (.validation ("Invalid probe type '" ++ formatGoFloat probeType ++
      "'.  Must be between 0.1 and 10.")), s)
  else
    let s1 := writeOp ("K," ++ formatGoFloat probeType) s
    match PerformRead 300 s1 with
    | (.error e, s2) => (.error e, s2)
    | (.ok _, s2) => (.ok (), s2)

/-- Translation of (*Conductivity).Calibration: for point "dry" send
CAL,dry with a 2000 ms settle; for any other point send
CAL,<point>,<int(value)> (value truncated to an integer) with a 1500 ms
settle.  No validation of the point is performed. -/
def Calibration (calPoint : String) (ecValue : ℚ) (s : TState) :
    Except DriverErr Unit × TState :=
  let (calStr, calTime) :=
    if calPoint = "dry" then ("CAL,dry", 2000)
    else ("CAL," ++ calPoint ++ "," ++ toString (goTruncatedInt ecValue), 1500)
  let s1 := writeOp calStr s
  match PerformRead calTime s1 with
  | (.error e, s2) => (.error e, s2)
  | (.ok _, s2) => (.ok (), s2)

end Conductivity

/-- C3: round-tripping each measurement through the two package-level
lookup tables yields it back, and each of the four protocol tokens EC, TDS,
S, SG maps back and forth exactly, so the two tables form a bijection
between the four enum values and the four tokens. -/
theorem conductivity_token_maps_bijective :
    (∀ p : ConductivityMeasurement,
      (conductivityMeasurementToOutputParam p).bind outputParamToConductivityMeasurement =
        some p) ∧
    conductivityMeasurementToOutputParam .EC = some "EC" ∧
    conductivityMeasurementToOutputParam .TDS = some "TDS" ∧
    conductivityMeasurementToOutputParam .Salinity = some "S" ∧
    conductivityMeasurementToOutputParam .SpecificGravity = some "SG" ∧
    outputParamToConductivityMeasurement "EC" = some .EC ∧
    outputParamToConductivityMeasurement "TDS" = some .TDS ∧
    outputParamToConductivityMeasurement "S" = some .Salinity ∧
    outputParamToConductivityMeasurement "SG" = some .SpecificGravity := by
  refine ⟨fun p => ?_, by decide, by decide, by decide, by decide,
    by decide, by decide, by decide, by decide⟩
  cases p <;> decide

/-- C4 counterexample: the conductivity Calibration does not reject the
invalid point "bogus" — it issues the device write CAL,bogus,5 and
succeeds. -/
theorem conductivity_calibration_no_validation_counterexample :
    Conductivity.Calibration "bogus" 5 ⟨[okFrame], []⟩ =
      (.ok (), ⟨[], [.wr "CAL,bogus,5", .slp 1500, .rd]⟩) := by
  decide

/-- C4 (amended): pH Calibration rejects any point other than high, mid,
low with a validation error, issuing no device write; conductivity
Calibration performs no point validation — any point other than "dry",
valid or not, is formatted into CAL,<point>,<int(value)> and sent. -/
theorem calibration_point_validation
    (p : String) (v : ℚ) (st : TState) (rest : List (List Nat)) (evs : List Ev) :
    (p ≠ "high" → p ≠ "mid" → p ≠ "low" →
      PH.Calibration p v st =
        (.error (.validation "Invalid calPoint value.  Valid values: high, mid low"), st)) ∧
    (p ≠ "dry" →
      Conductivity.Calibration p v ⟨okFrame :: rest, evs⟩ =
        (.ok (), ⟨rest, evs ++ [.wr ("CAL," ++ p ++ "," ++ toString (goTruncatedInt v)),
          .slp 1500, .rd]⟩)) := by
  constructor
  · intro hh hm hl
    simp [PH.Calibration, hh, hm, hl]
  · intro hd
    simp [Conductivity.Calibration, hd, writeOp, logEv, performRead_okFrame]

/-- C4 witness: the pH sensor rejects the (conductivity-only) point "dry"
without a write, while the conductivity sensor formats and sends the valid
pH point "high" as well as the invalid point "bogus". -/
theorem calibration_point_validation_witness :
    PH.Calibration "dry" 5 ⟨[], []⟩ =
      (.error (.validation "Invalid calPoint value.  Valid values: high, mid low"),
        ⟨[], []⟩) ∧
    Conductivity.Calibration "high" 5 ⟨[okFrame], []⟩ =
      (.ok (), ⟨[], [.wr "CAL,high,5", .slp 1500, .rd]⟩) ∧
    Conductivity.Calibration "bogus" 5 ⟨[okFrame], []⟩ =
      (.ok (), ⟨[], [.wr "CAL,bogus,5", .slp 1500, .rd]⟩) := by
  have h1 := (calibration_point_validation "dry" 5 ⟨[], []⟩ [] []).1
    (by decide) (by decide) (by decide)
  have h2 := (calibration_point_validation "high" 5 ⟨[], []⟩ [] []).2 (by decide)
  have h3 := (calibration_point_validation "bogus" 5 ⟨[], []⟩ [] []).2 (by decide)
  exact ⟨h1, h2.trans (by decide), h3.trans (by decide)⟩

/-- C5: ProbeType with a probe constant outside the closed range [0.1, 10]
fails with a validation error and issues no write (the transport state is
untouched); with a constant inside the range it writes K,<k> and, given a
successful reply frame, succeeds. -/
theorem conductivity_probeType_range
    (k : ℚ) (st : TState) (rest : List (List Nat)) (evs : List Ev) :
    (k < 1 / 10 ∨ 10 < k →
      Conductivity.ProbeType k st =
        (.error (.validation ("Invalid probe type '" ++ formatGoFloat k ++
          "'.  Must be between 0.1 and 10.")), st)) ∧
    (1 / 10 ≤ k → k ≤ 10 →
      Conductivity.ProbeType k ⟨okFrame :: rest, evs⟩ =
        (.ok (), ⟨rest, evs ++ [.wr ("K," ++ formatGoFloat k), .slp 300, .rd]⟩)) := by
  have hmk : mkRat 1 10 = (1 : ℚ) / 10 := by
    rw [Rat.mkRat_eq_div]; norm_num
  constructor
  · intro h
    unfold Conductivity.ProbeType
    rw [if_pos (by rw [hmk]; exact h)]
  · intro h1 h2
    have hcond : ¬(k < mkRat 1 10 ∨ 10 < k) := by
      rw [hmk]; exact not_or.mpr ⟨not_lt.mpr h1, not_lt.mpr h2⟩
    unfold Conductivity.ProbeType
    rw [if_neg hcond]
    simp [writeOp, logEv, performRead_okFrame]

/-- C5 witness: the out-of-range constant 20 is rejected without any device
write; the in-range constant 1 issues K,1.000000 and succeeds. -/
theorem conductivity_probeType_range_witness :
    Conductivity.ProbeType 20 ⟨[], []⟩ =
      (.error (.validation "Invalid probe type '20.000000'.  Must be between 0.1 and 10."),
        ⟨[], []⟩) ∧
    Conductivity.ProbeType 1 ⟨[okFrame], []⟩ =
      (.ok (), ⟨[], [.wr "K,1.000000", .slp 300, .rd]⟩) := by
  have h1 := (conductivity_probeType_range 20 ⟨[], []⟩ [] []).1 (Or.inr (by norm_num))
  have h2 := (conductivity_probeType_range 1 ⟨[], []⟩ [] []).2 (by norm_num) (by norm_num)
  exact ⟨h1.trans (by decide), h2.trans (by decide)⟩

/-- C8: conductivity Calibration with the point "dry" sends exactly CAL,dry
with no value and waits 2000 ms before the read; with each of the other
points one, low, high it sends CAL,<point>,<int(value)>, the value
truncated to an integer, and waits 1500 ms. -/
theorem conductivity_calibration_commands
    (v : ℚ) (rest : List (List Nat)) (evs : List Ev) :
    Conductivity.Calibration "dry" v ⟨okFrame :: rest, evs⟩ =
      (.ok (), ⟨rest, evs ++ [.wr "CAL,dry", .slp 2000, .rd]⟩) ∧
    Conductivity.Calibration "one" v ⟨okFrame :: rest, evs⟩ =
      (.ok (), ⟨rest,
        evs ++ [.wr ("CAL,one," ++ toString (goTruncatedInt v)), .slp 1500, .rd]⟩) ∧
    Conductivity.Calibration "low" v ⟨okFrame :: rest, evs⟩ =
      (.ok (), ⟨rest,
        evs ++ [.wr ("CAL,low," ++ toString (goTruncatedInt v)), .slp 1500, .rd]⟩) ∧
    Conductivity.Calibration "high" v ⟨okFrame :: rest, evs⟩ =
      (.ok (), ⟨rest,
        evs ++ [.wr ("CAL,high," ++ toString (goTruncatedInt v)), .slp 1500, .rd]⟩) := by
  have hone : ("one" : String) ≠ "dry" := by decide
  have hlow : ("low" : String) ≠ "dry" := by decide
  have hhigh : ("high" : String) ≠ "dry" := by decide
  refine ⟨?_, ?_, ?_, ?_⟩ <;>
    simp [Conductivity.Calibration, hone, hlow, hhigh, writeOp, logEv, performRead_okFrame]

/-- True when a driver result is an error. -/
def isErr {α : Type} : Except DriverErr α → Bool
  | .error _ => true
  | .ok _ => false

/-- Look a key up in the map carried by a successful GetAllValues result;
an error result carries no entries. -/
def resultLookup (r : Except DriverErr (ConductivityMeasurement → Option ℚ))
    (k : ConductivityMeasurement) : Option ℚ :=
  match r with
  | .ok m => m k
  | .error _ => none

-- Facts about the GetAllValues loop.

theorem valuesLoop_untouched :
    ∀ (l : List (ConductivityMeasurement × String)) (acc : ConductivityMeasurement → Option ℚ)
      (m : ConductivityMeasurement → Option ℚ),
      Conductivity.valuesLoop l acc = .ok m →
      ∀ k, k ∉ l.map Prod.fst → m k = acc k := by
  intro l
  induction l with
  | nil =>
    intro acc m h k _
    simp only [Conductivity.valuesLoop] at h
    cases h
    rfl
  | cons p tl ih =>
    intro acc m h k hk
    obtain ⟨a, s⟩ := p
    simp only [Conductivity.valuesLoop] at h
    cases hp : parseFloat32 s with
    | none =>
      rw [hp] at h
      exact Except.noConfusion h
    | some f =>
      simp only [hp] at h
      have hk1 : k ≠ a := fun heq => hk (by simp [heq])
      have hk2 : k ∉ tl.map Prod.fst := fun hmem => hk (by simp [hmem])
      rw [ih _ m h k hk2]
      simp [hk1]

theorem valuesLoop_parses :
    ∀ (l : List (ConductivityMeasurement × String)) (acc : ConductivityMeasurement → Option ℚ)
      (m : ConductivityMeasurement → Option ℚ),
      Conductivity.valuesLoop l acc = .ok m →
      ∀ p ∈ l, (parseFloat32 p.2).isSome := by
  intro l
  induction l with
  | nil => intro acc m _ p hp; simp at hp
  | cons q tl ih =>
    intro acc m h p hp
    obtain ⟨a, s⟩ := q
    simp only [Conductivity.valuesLoop] at h
    cases hq : parseFloat32 s with
    | none =>
      rw [hq] at h
      exact Except.noConfusion h
    | some f =>
      simp only [hq] at h
      rcases List.mem_cons.mp hp with heq | hmem
      · rw [heq]; rw [hq]; rfl
      · exact ih _ m h p hmem

theorem valuesLoop_total :
    ∀ (l : List (ConductivityMeasurement × String)),
      (∀ p ∈ l, (parseFloat32 p.2).isSome) →
      ∀ acc, ∃ m, Conductivity.valuesLoop l acc = .ok m := by
  intro l
  induction l with
  | nil => intro _ acc; exact ⟨acc, rfl⟩
  | cons q tl ih =>
    intro h acc
    obtain ⟨a, s⟩ := q
    obtain ⟨f, hf⟩ := Option.isSome_iff_exists.mp (h (a, s) (List.mem_cons_self _ _))
    have := ih (fun p hp => h p (List.mem_cons_of_mem _ hp))
      (fun k2 => if k2 = a then some f else acc k2)
    obtain ⟨m, hm⟩ := this
    refine ⟨m, ?_⟩
    simp only [Conductivity.valuesLoop, hf]
    exact hm

theorem valuesLoop_isSome_iff :
    ∀ (l : List (ConductivityMeasurement × String)) (acc : ConductivityMeasurement → Option ℚ)
      (m : ConductivityMeasurement → Option ℚ),
      Conductivity.valuesLoop l acc = .ok m →
      ∀ k, (m k).isSome ↔ (k ∈ l.map Prod.fst ∨ (acc k).isSome) := by
  intro l
  induction l with
  | nil =>
    intro acc m h k
    simp only [Conductivity.valuesLoop] at h
    cases h
    simp
  | cons q tl ih =>
    intro acc m h k
    obtain ⟨a, s⟩ := q
    simp only [Conductivity.valuesLoop] at h
    cases hq : parseFloat32 s with
    | none =>
      rw [hq] at h
      exact Except.noConfusion h
    | some f =>
      simp only [hq] at h
      have := ih _ m h k
      by_cases hka : k = a
      · subst hka
        simp only [this]
        simp
      · simp only [this]
        simp [hka]

theorem valuesLoop_get :
    ∀ (l : List (ConductivityMeasurement × String)) (acc : ConductivityMeasurement → Option ℚ)
      (m : ConductivityMeasurement → Option ℚ),
      Conductivity.valuesLoop l acc = .ok m →
      (l.map Prod.fst).Nodup →
      ∀ i (hi : i < l.length),
        m (l.get ⟨i, hi⟩).1 = parseFloat32 (l.get ⟨i, hi⟩).2 := by
  intro l
  induction l with
  | nil => intro acc m _ _ i hi; simp at hi
  | cons q tl ih =>
    intro acc m h hnd i hi
    obtain ⟨a, s⟩ := q
    simp only [Conductivity.valuesLoop] at h
    cases hq : parseFloat32 s with
    | none =>
      rw [hq] at h
      exact Except.noConfusion h
    | some f =>
      simp only [hq] at h
      rw [List.map_cons] at hnd
      have hnd' := List.nodup_cons.mp hnd
      cases i with
      | zero =>
        show m a = parseFloat32 s
        rw [valuesLoop_untouched tl _ m h a hnd'.1, hq]
        simp
      | succ j =>
        exact ih _ m h hnd'.2 j (Nat.succ_lt_succ_iff.mp hi)

/-- C2: GetAllValues on a conductivity sensor fails whenever the number of
comma-separated fields in the raw reply differs from the length of the
current output-parameter set; otherwise, when every field parses, it
returns a map whose keys are exactly the negotiated output parameters and
whose values are the positionally corresponding CSV fields (stated for a
duplicate-free parameter set); a field that fails float parsing is an
error, never a default. -/
theorem conductivity_getAllValues_spec
    (outputParams : List ConductivityMeasurement) (rawValue : String) :
    ((splitComma rawValue).length ≠ outputParams.length →
      isErr (Conductivity.GetAllValues outputParams rawValue) = true) ∧
    ((splitComma rawValue).length = outputParams.length →
      ((∃ s ∈ splitComma rawValue, parseFloat32 s = none) →
        isErr (Conductivity.GetAllValues outputParams rawValue) = true) ∧
      ((∀ s ∈ splitComma rawValue, (parseFloat32 s).isSome) →
        isErr (Conductivity.GetAllValues outputParams rawValue) = false ∧
        (∀ k, (resultLookup (Conductivity.GetAllValues outputParams rawValue) k).isSome ↔
            k ∈ outputParams) ∧
        (outputParams.Nodup →
          ∀ i (hi : i < outputParams.length) (hf : i < (splitComma rawValue).length),
            resultLookup (Conductivity.GetAllValues outputParams rawValue)
                (outputParams.get ⟨i, hi⟩) =
              parseFloat32 ((splitComma rawValue).get ⟨i, hf⟩)))) := by
  constructor
  · intro hne
    simp only [Conductivity.GetAllValues]
    rw [if_pos hne]
    rfl
  · intro hlen
    have hnot : ¬(splitComma rawValue).length ≠ outputParams.length := fun h => h hlen
    constructor
    · rintro ⟨s, hs, hnone⟩
      simp only [Conductivity.GetAllValues]
      rw [if_neg hnot]
      cases hv : Conductivity.valuesLoop (outputParams.zip (splitComma rawValue))
          (fun _ => none) with
      | error e => rfl
      | ok m =>
        exfalso
        have hsnd : (outputParams.zip (splitComma rawValue)).map Prod.snd =
            splitComma rawValue :=
          List.map_snd_zip _ _ (le_of_eq hlen)
        rw [← hsnd] at hs
        obtain ⟨p, hpmem, hps⟩ := List.mem_map.mp hs
        have := valuesLoop_parses _ _ _ hv p hpmem
        rw [hps, hnone] at this
        simp at this
    · intro hall
      have hzip : ∀ p ∈ outputParams.zip (splitComma rawValue),
          (parseFloat32 p.2).isSome := by
        intro p hp
        obtain ⟨a, s⟩ := p
        exact hall s (List.of_mem_zip hp).2
      obtain ⟨m, hm⟩ := valuesLoop_total _ hzip (fun _ => none)
      have hGA : Conductivity.GetAllValues outputParams rawValue = .ok m := by
        simp only [Conductivity.GetAllValues]
        rw [if_neg hnot]
        exact hm
      refine ⟨by rw [hGA]; rfl, ?_, ?_⟩
      · intro k
        rw [hGA]
        simp only [resultLookup]
        have := valuesLoop_isSome_iff _ _ _ hm k
        rw [List.map_fst_zip _ _ hlen.symm.le] at this
        simpa using this
      · intro hnd i hi hf
        rw [hGA]
        simp only [resultLookup]
        have hlz : i < (outputParams.zip (splitComma rawValue)).length := by
          rw [List.length_zip]
          exact Nat.lt_min.mpr ⟨hi, hf⟩
        have hnd' : ((outputParams.zip (splitComma rawValue)).map Prod.fst).Nodup := by
          rw [List.map_fst_zip _ _ hlen.symm.le]
          exact hnd
        have hget := valuesLoop_get _ _ _ hm hnd' i hlz
        have hz : (outputParams.zip (splitComma rawValue)).get ⟨i, hlz⟩ =
            (outputParams.get ⟨i, hi⟩, (splitComma rawValue).get ⟨i, hf⟩) := by
          simp [List.get_eq_getElem, List.getElem_zip]
        rw [hz] at hget
        exact hget

/-- C2 witness: with negotiated set [EC, TDS] and raw reply "1413,707" the
call succeeds with exactly those keys and the positionally parsed values;
with set [EC] the same two-field reply is a count-mismatch error. -/
theorem conductivity_getAllValues_spec_witness :
    isErr (Conductivity.GetAllValues [.EC, .TDS] "1413,707") = false ∧
    resultLookup (Conductivity.GetAllValues [.EC, .TDS] "1413,707") .EC = some 1413 ∧
    resultLookup (Conductivity.GetAllValues [.EC, .TDS] "1413,707") .TDS = some 707 ∧
    ((resultLookup (Conductivity.GetAllValues [.EC, .TDS] "1413,707") .Salinity).isSome ↔
      ConductivityMeasurement.Salinity ∈ [ConductivityMeasurement.EC, .TDS]) ∧
    isErr (Conductivity.GetAllValues [.EC] "1413,707") = true := by
  have h := conductivity_getAllValues_spec [.EC, .TDS] "1413,707"
  have h1 := conductivity_getAllValues_spec [.EC] "1413,707"
  obtain ⟨hok, hkeys, hpos⟩ := (h.2 (by decide)).2 (by decide)
  refine ⟨hok, ?_, ?_, hkeys .Salinity, h1.1 (by decide)⟩
  · exact (hpos (by decide) 0 (by decide) (by decide)).trans (by decide)
  · exact (hpos (by decide) 1 (by decide) (by decide)).trans (by decide)

/-- C9: when GetAllValues fails, the conductivity GetValue returns the
ERROR_VALUE sentinel -1 together with that error; when GetAllValues
succeeds while the configured default measurement is not among the enabled
output parameters, GetValue returns 0 with no error — a silent default. -/
theorem conductivity_getValue_sentinels
    (dm : ConductivityMeasurement) (outputParams : List ConductivityMeasurement)
    (rawValue : String) :
    (∀ e, Conductivity.GetAllValues outputParams rawValue = .error e →
      Conductivity.GetValue dm outputParams rawValue = (ERROR_VALUE, some e) ∧
        ERROR_VALUE = -1) ∧
    (∀ m, Conductivity.GetAllValues outputParams rawValue = .ok m →
      dm ∉ outputParams →
      Conductivity.GetValue dm outputParams rawValue = (0, none)) := by
  constructor
  · intro e he
    exact ⟨by simp only [Conductivity.GetValue, he], rfl⟩
  · intro m hm hdm
    have hmk : m dm = none := by
      by_cases hlen : (splitComma rawValue).length = outputParams.length
      · have hnot : ¬(splitComma rawValue).length ≠ outputParams.length := fun h => h hlen
        simp only [Conductivity.GetAllValues] at hm
        rw [if_neg hnot] at hm
        have := valuesLoop_isSome_iff _ _ _ hm dm
        rw [List.map_fst_zip _ _ hlen.symm.le] at this
        simp [hdm] at this
        exact Option.not_isSome_iff_eq_none.mp (by simp [this])
      · simp only [Conductivity.GetAllValues] at hm
        rw [if_pos hlen] at hm
        exact Except.noConfusion hm
    simp only [Conductivity.GetValue, hm, hmk]
    rfl

/-- C9 witness: with only EC enabled, a default measurement of TDS comes
back as 0 with no error, and an unparsable reply comes back as the -1
sentinel with the parse error. -/
theorem conductivity_getValue_sentinels_witness :
    Conductivity.GetValue .TDS [.EC] "1413" = (0, none) ∧
    Conductivity.GetValue .EC [.EC] "x" = (ERROR_VALUE, some (.parseE "x")) := by
  constructor
  · cases hm : Conductivity.GetAllValues [.EC] "1413" with
    | error e =>
      have hfalse : isErr (Conductivity.GetAllValues [.EC] "1413") = false := by decide
      rw [hm] at hfalse
      exact Bool.noConfusion hfalse
    | ok m =>
      exact (conductivity_getValue_sentinels .TDS [.EC] "1413").2 m hm (by decide)
  · exact ((conductivity_getValue_sentinels .EC [.EC] "x").1 (.parseE "x") rfl).1

/-- The trace OutputParameters emits for the given entries when every read
succeeds: write O,<token>,<1|0>, sleep 300 ms, read, for each entry in
order. -/
def enableTrace : List (ConductivityMeasurement × Bool) → List Ev
  | [] => []
  | kv :: tl =>
    [.wr ("O," ++ tokenOf kv.1 ++ "," ++ (if kv.2 then "1" else "0")), .slp 300, .rd] ++
      enableTrace tl

theorem conductivityMeasurementToOutputParam_eq (k : ConductivityMeasurement) :
    conductivityMeasurementToOutputParam k = some (tokenOf k) := by
  cases k <;> rfl

theorem outputParameters_ok_trace :
    ∀ (entries : List (ConductivityMeasurement × Bool)) (more : List (List Nat))
      (evs : List Ev),
      Conductivity.OutputParameters entries
          ⟨List.replicate entries.length okFrame ++ more, evs⟩ =
        (.ok (), ⟨more, evs ++ enableTrace entries⟩) := by
  intro entries
  induction entries with
  | nil => intro more evs; simp [Conductivity.OutputParameters, enableTrace]
  | cons kv tl ih =>
    intro more evs
    obtain ⟨k, b⟩ := kv
    simp only [Conductivity.OutputParameters, conductivityMeasurementToOutputParam_eq k,
      List.length_cons, List.replicate_succ, List.cons_append, writeOp, logEv,
      performRead_okFrame]
    rw [ih]
    simp [enableTrace]

theorem enableTrace_mem :
    ∀ (entries : List (ConductivityMeasurement × Bool)) (k : ConductivityMeasurement),
      (k, true) ∈ entries →
      Ev.wr ("O," ++ tokenOf k ++ ",1") ∈ enableTrace entries := by
  intro entries
  induction entries with
  | nil => intro k h; simp at h
  | cons kv tl ih =>
    intro k h
    simp only [enableTrace, List.mem_append]
    rcases List.mem_cons.mp h with heq | hmem
    · left
      rw [← heq]
      cases k <;> decide
    · right
      exact ih k hmem

/-- C10: for any iteration order of the all-true map, a successful
conductivity Init issues the enable command O,<token>,1 with a full 300 ms
read cycle for each of the four output parameters, and its trace contains
the enable command of every one of the four channels; the base sensor's
Init performs no device I/O and always returns nil. -/
theorem conductivity_init_enables_all
    (order : List (ConductivityMeasurement × Bool))
    (hperm : order.Perm Conductivity.allOnEntries) (evs : List Ev) :
    Conductivity.Init order ⟨List.replicate 4 okFrame, evs⟩ =
      (.ok (), ⟨[], evs ++ enableTrace order⟩) ∧
    (∀ k : ConductivityMeasurement,
      Ev.wr ("O," ++ tokenOf k ++ ",1") ∈ enableTrace order) ∧
    (∀ s : TState, AtlasScientific.Init s = (.ok (), s)) := by
  have hlen : order.length = 4 := by
    have := hperm.length_eq
    simpa [Conductivity.allOnEntries] using this
  refine ⟨?_, ?_, fun s => rfl⟩
  · have h := outputParameters_ok_trace order [] evs
    rw [hlen] at h
    simpa [Conductivity.Init, Conductivity.defaultOutputParameters] using h
  · intro k
    have hmem : (k, true) ∈ order := hperm.mem_iff.mpr (by cases k <;> decide)
    exact enableTrace_mem order k hmem

/-- C10 witness: with the map-literal order itself, Init enables EC, TDS, S
and SG, each with its own 300 ms read cycle. -/
theorem conductivity_init_enables_all_witness :
    Conductivity.Init Conductivity.allOnEntries ⟨List.replicate 4 okFrame, []⟩ =
      (.ok (), ⟨[], [.wr "O,EC,1", .slp 300, .rd, .wr "O,TDS,1", .slp 300, .rd,
        .wr "O,S,1", .slp 300, .rd, .wr "O,SG,1", .slp 300, .rd]⟩) := by
  have h := (conductivity_init_enables_all Conductivity.allOnEntries
    (List.Perm.refl _) []).1
  exact h.trans (by decide)
